import Mathlib

/-!
Shallow embedding of the EngVision bubble-detection and leader-line-tracing
core (`engvision/services/bubble_detection.py` and
`engvision/services/leader_line_tracer.py`), with proofs of behavioural
claims about deduplication, verification gating, bubble numbering,
capture-box placement and direction tracing.

Conventions used throughout:
* Python ints are modelled as `ℤ`; Python float arithmetic is modelled
  exactly, as `ℚ` where the code only adds, multiplies and divides
  integer-derived values, and as `ℝ` where `math.sqrt` / `math.cos` /
  `math.sin` appear.
* `int(x)` (truncation toward zero) is `pyTrunc`; Python `//` is `Int.fdiv`.
* Binary images are predicates `ℤ → ℤ → Bool`; a filled `cv2.circle` of
  radius `R` is modelled as the integer disk of squared radius `R ^ 2`.
* `_distance(x1, y1, x2, y2) < t` in the source (float `sqrt` of an integer)
  is equivalent to `sqDist x1 y1 x2 y2 < t ^ 2`, which is how the proximity
  comparisons are rendered here.
-/

namespace EngVision

/-- Squared Euclidean distance between integer pixel centres, the exact
content of the float comparison `_distance(...) < 25.0` in `_verify_bubbles`
(squared threshold `625`). -/
def sqDist (x1 y1 x2 y2 : ℤ) : ℤ := (x1 - x2) ^ 2 + (y1 - y2) ^ 2

/-- A candidate that passed all four verification gates of `_verify_bubbles`:
the tuple `(cx, cy, verified_r, score)` appended at line 277. -/
structure PassedCand where
  cx : ℤ
  cy : ℤ
  r : ℤ
  score : ℚ

/-- The sort `sorted(passed, key=lambda p: -p[3])` — stable, descending by
score. -/
def sortByScoreDesc (l : List PassedCand) : List PassedCand :=
  l.mergeSort (fun a b => decide (b.score ≤ a.score))

/-- The greedy suppression loop of `_verify_bubbles` (lines 279–294): take the
highest-scoring remaining candidate, mark every later candidate within 25 px
of it as used, and repeat with the unused remainder. Marking-as-used is
rendered by filtering the tail down to the candidates at squared distance
at least 625. -/
def dedupPass : List PassedCand → List (ℤ × ℤ × ℤ)
  | [] => []
  | best :: rest =>
      (best.cx, best.cy, best.r) ::
        dedupPass (rest.filter (fun q => decide (625 ≤ sqDist best.cx best.cy q.cx q.cy)))
termination_by l => l.length
decreasing_by simpa using Nat.lt_succ_of_le (List.length_filter_le _ _)

/-- The whole deduplication stage of `_verify_bubbles`: sort by descending
score, then greedily suppress within 25 px. -/
def verifyDedup (passed : List PassedCand) : List (ℤ × ℤ × ℤ) :=
  dedupPass (sortByScoreDesc passed)

/-- Sort key of `detect_bubbles` line 119: `(b[1] // 60, b[0])` — row band of
60 px, then x. -/
def bubbleSortKey (b : ℤ × ℤ × ℤ) : ℤ × ℤ := (Int.fdiv b.2.1 60, b.1)

/-- Lexicographic order on sort keys, as Python orders the key tuples. -/
def keyLe (k1 k2 : ℤ × ℤ) : Prop := k1.1 < k2.1 ∨ (k1.1 = k2.1 ∧ k1.2 ≤ k2.2)

instance (k1 k2 : ℤ × ℤ) : Decidable (keyLe k1 k2) := by
  unfold keyLe
  infer_instance

/-- `verified.sort(key=lambda b: (b[1] // 60, b[0]))` — stable ascending
sort of the deduplicated bubbles into reading order. -/
def sortVerified (l : List (ℤ × ℤ × ℤ)) : List (ℤ × ℤ × ℤ) :=
  l.mergeSort (fun a b => decide (keyLe (bubbleSortKey a) (bubbleSortKey b)))

/-- Integer rectangle: the `boundingBox` dict / `BoundingBox` model. -/
structure BBox where
  x : ℤ
  y : ℤ
  width : ℤ
  height : ℤ
deriving DecidableEq

/-- A `DetectedRegion` dict as built by `detect_bubbles` and rewritten by
`trace_and_expand`. `rtype` is the numeric `RegionType` value (`BUBBLE = 0`,
`BUBBLE_WITH_FIGURE = 1`); keys a stage leaves absent are `none`. -/
structure Region where
  id : ℤ
  pageNumber : ℤ
  rtype : ℤ
  boundingBox : BBox
  bubbleNumber : Option ℤ
  label : Option String
  croppedImagePath : Option String
  captureBox : Option BBox
  leaderDirection : Option (ℝ × ℝ)

/-- Region construction of `detect_bubbles` lines 118–137: sort the verified
bubbles `(cx, cy, radius)` into reading order, then build one region per
bubble with the 1-based index as `id` and `bubbleNumber` and with a bounding
box clamped to the page. -/
def detectRegions (verified : List (ℤ × ℤ × ℤ)) (pageNumber imgW imgH : ℤ) : List Region :=
  (sortVerified verified).enum.map (fun ib =>
    let idx : ℤ := (ib.1 : ℤ) + 1
    let cx := ib.2.1
    let cy := ib.2.2.1
    let radius := ib.2.2.2
    let bx := max 0 (cx - radius)
    let byy := max 0 (cy - radius)
    ⟨idx, pageNumber, 0,
      ⟨bx, byy, min (radius * 2) (imgW - bx), min (radius * 2) (imgH - byy)⟩,
      some idx, some ("Bubble_" ++ toString idx), none, none, none⟩)

/-- Radii scanned by gate 1 of `_verify_bubbles`:
`range(scan_min, scan_max + 1)`. -/
def scanRadii (scanMin scanMax : ℤ) : List ℤ :=
  (List.range (scanMax + 1 - scanMin).toNat).map (fun i => scanMin + (i : ℤ))

/-- One iteration of the gate-1 scan loop (lines 193–204): skip radii whose
3 px ring rasterises to no pixels, otherwise keep the strictly larger blue
fraction together with its radius. -/
def scanStep (ringTotal ringBlue : ℤ → ℕ) (st : ℚ × ℤ) (r : ℤ) : ℚ × ℤ :=
  if ringTotal r = 0 then st
  else if st.1 < (ringBlue r : ℚ) / (ringTotal r : ℚ) then
    ((ringBlue r : ℚ) / (ringTotal r : ℚ), r)
  else st

/-- `(best_blue_ratio, best_blue_r)` after the gate-1 scan loop, starting from
`(0.0, radius)`. `ringTotal r` models `cv2.countNonZero(perim_mask)` for the
3 px ring at radius `r`, and `ringBlue r` models the count of its
intersection with the blue mask — abstract pixel counts taken from the page
image. -/
def scanBest (ringTotal ringBlue : ℤ → ℕ) (radius scanMin scanMax : ℤ) : ℚ × ℤ :=
  (scanRadii scanMin scanMax).foldl (scanStep ringTotal ringBlue) (0, radius)

/-- `scan_max` of lines 189–191, computed from the candidate's position inside
its padded ROI (`roi_cx, roi_cy`) and the ROI extents. -/
def gate1ScanMax (roiCx roiCy roiW roiH : ℤ) : ℤ :=
  min (min (min roiCx roiCy - 2) (min (roiW - roiCx) (roiH - roiCy) - 2)) 26

/-- Gate 1 of `_verify_bubbles` (lines 183–210): `some (verified_r,
best_blue_ratio)` when the candidate survives the perimeter-colour gate,
`none` when it is dropped. -/
def gate1 (ringTotal ringBlue : ℤ → ℕ) (radius roiCx roiCy roiW roiH : ℤ) : Option (ℤ × ℚ) :=
  let best := scanBest ringTotal ringBlue radius 8 (gate1ScanMax roiCx roiCy roiW roiH)
  if best.1 < 15 / 100 then none
  else if best.2 < 10 ∨ 22 < best.2 then none
  else some (best.2, best.1)

/-- Abstract ring pixel counts used to instantiate the gate-1 specification:
every scanned ring has 100 pixels. -/
def ringTW (_ : ℤ) : ℕ := 100

/-- Abstract blue ring pixel counts used to instantiate the gate-1
specification: 20 blue pixels at radius 15, none elsewhere. -/
def ringBW (s : ℤ) : ℕ := if s = 15 then 20 else 0

/-- Python `int(x)` applied to a float: truncation toward zero. -/
noncomputable def pyTrunc (x : ℝ) : ℤ := if x < 0 then ⌈x⌉ else ⌊x⌋

/-- `CAPTURE_STEPS` of `leader_line_tracer.py`: the four progressive capture
box sizes `(width, height)`. -/
def CAPTURE_STEPS : List (ℤ × ℤ) := [(128, 128), (256, 128), (512, 256), (1024, 512)]

/-- `anchor_half = CAPTURE_STEPS[0][0] // 2` of `place_capture_box` (= 64). -/
def anchorHalf : ℤ := CAPTURE_STEPS.headI.1.fdiv 2

/-- `box_dist = b_radius + anchor_half + 4` of `place_capture_box`. -/
def boxDist (bRadius : ℤ) : ℤ := bRadius + anchorHalf + 4

/-- Box centre before the doubling-back adjustment (`place_capture_box` lines
111–114): bubble centre plus `box_dist` along the direction. Note it does not
depend on the requested box size. -/
noncomputable def boxCenterInit (bcx bcy bRadius : ℤ) (dx dy : ℝ) : ℝ × ℝ :=
  ((bcx : ℝ) + dx * (boxDist bRadius : ℝ), (bcy : ℝ) + dy * (boxDist bRadius : ℝ))

/-- Minimum over the four corners of a `halfW × halfH` box around centre `c`
of the projection onto `(dx, dy)` measured from the bubble centre
(`place_capture_box` lines 117–123). -/
noncomputable def cornerMinDot (bcx bcy : ℤ) (dx dy : ℝ) (c : ℝ × ℝ) (halfW halfH : ℤ) : ℝ :=
  min
    (min ((c.1 - (halfW : ℝ) - (bcx : ℝ)) * dx + (c.2 - (halfH : ℝ) - (bcy : ℝ)) * dy)
      ((c.1 + (halfW : ℝ) - (bcx : ℝ)) * dx + (c.2 - (halfH : ℝ) - (bcy : ℝ)) * dy))
    (min ((c.1 - (halfW : ℝ) - (bcx : ℝ)) * dx + (c.2 + (halfH : ℝ) - (bcy : ℝ)) * dy)
      ((c.1 + (halfW : ℝ) - (bcx : ℝ)) * dx + (c.2 + (halfH : ℝ) - (bcy : ℝ)) * dy))

/-- Box centre after the doubling-back adjustment (`place_capture_box` lines
125–128): push the centre forward by `-min_dot + 1` along the direction when
some corner projects negatively. -/
noncomputable def placedCenter (bcx bcy bRadius : ℤ) (dx dy : ℝ) (width height : ℤ) : ℝ × ℝ :=
  let c := boxCenterInit bcx bcy bRadius dx dy
  let minDot := cornerMinDot bcx bcy dx dy c (width.fdiv 2) (height.fdiv 2)
  if minDot < 0 then (c.1 + dx * (-minDot + 1), c.2 + dy * (-minDot + 1)) else c

/-- `place_capture_box` (lines 95–135): place the box along the ray, adjust
for doubling back, truncate to ints and clamp to the page. -/
noncomputable def placeCaptureBox (bcx bcy bRadius : ℤ) (dx dy : ℝ)
    (width height imgW imgH : ℤ) : BBox :=
  let c := placedCenter bcx bcy bRadius dx dy width height
  let x1 := max 0 (pyTrunc (c.1 - ((width.fdiv 2 : ℤ) : ℝ)))
  let y1 := max 0 (pyTrunc (c.2 - ((height.fdiv 2 : ℤ) : ℝ)))
  let x2 := min imgW (pyTrunc (c.1 + ((width.fdiv 2 : ℤ) : ℝ)))
  let y2 := min imgH (pyTrunc (c.2 + ((height.fdiv 2 : ℤ) : ℝ)))
  ⟨x1, y1, x2 - x1, y2 - y1⟩

/-- The `_find_triangle_direction` search ROI `[rx1, rx2) × [ry1, ry2)`
(lines 155–159): a square of half side `3 * b_radius` clamped to the page. -/
structure Roi where
  x1 : ℤ
  y1 : ℤ
  x2 : ℤ
  y2 : ℤ
deriving DecidableEq

def roiOf (bcx bcy bRadius imgW imgH : ℤ) : Roi :=
  ⟨max 0 (bcx - bRadius * 3), max 0 (bcy - bRadius * 3),
    min imgW (bcx + bRadius * 3), min imgH (bcy + bRadius * 3)⟩

/-- ROI width `rx2 - rx1`. -/
def Roi.wd (r : Roi) : ℤ := r.x2 - r.x1

/-- ROI height `ry2 - ry1`. -/
def Roi.ht (r : Roi) : ℤ := r.y2 - r.y1

/-- The degenerate-ROI bailout `rx2 - rx1 < 10 or ry2 - ry1 < 10` (line 160). -/
def roiDegenerate (r : Roi) : Prop := r.wd < 10 ∨ r.ht < 10

instance (r : Roi) : Decidable (roiDegenerate r) := by
  unfold roiDegenerate
  infer_instance

/-- The ROI-local blue mask after erasing every other bubble's disk inflated
by 1 px (lines 163–175). `allBubbles` is the list of `(bcx, bcy, b_radius)`
triples; the entry at `selfIdx` is kept. A filled `cv2.circle` of radius
`o_r + 1` is modelled as the integer disk of that squared radius. -/
def erasedOthersMask (blueMask : ℤ → ℤ → Bool) (allBubbles : List (ℤ × ℤ × ℤ))
    (selfIdx : ℕ) (r : Roi) : ℤ → ℤ → Bool := fun x y =>
  blueMask (x + r.x1) (y + r.y1) &&
  !(allBubbles.enum.any (fun jb =>
    (jb.1 != selfIdx) &&
    (decide (-(jb.2.2.2 * 2) < jb.2.1 - r.x1 ∧ jb.2.1 - r.x1 < r.wd + jb.2.2.2 * 2 ∧
        -(jb.2.2.2 * 2) < jb.2.2.1 - r.y1 ∧ jb.2.2.1 - r.y1 < r.ht + jb.2.2.2 * 2) &&
      decide ((x - (jb.2.1 - r.x1)) ^ 2 + (y - (jb.2.2.1 - r.y1)) ^ 2 ≤ (jb.2.2.2 + 1) ^ 2))))

/-- One probe of the seed search: the pixel at angle `5 a` degrees and radius
`rr` from the ROI-local bubble centre, accepted when it is in bounds and
mask-positive (the loop body of lines 179–186 resp. 191–198). -/
noncomputable def seedProbe (roi : ℤ → ℤ → Bool) (w h roiCx roiCy rr : ℤ) (a : ℕ) :
    Option (ℤ × ℤ) :=
  let px := pyTrunc ((roiCx : ℝ) + (rr : ℝ) * Real.cos ((a : ℝ) * 5 * Real.pi / 180))
  let py := pyTrunc ((roiCy : ℝ) + (rr : ℝ) * Real.sin ((a : ℝ) * 5 * Real.pi / 180))
  if 0 ≤ px ∧ px < w ∧ 0 ≤ py ∧ py < h ∧ roi px py = true then some (px, py) else none

/-- One pass of the seed search (lines 179–186 resp. 191–198): scan angles
0°, 5°, …, 355° at radius `rr` for an in-bounds mask-positive pixel. -/
noncomputable def findSeedAt (roi : ℤ → ℤ → Bool) (w h roiCx roiCy rr : ℤ) : Option (ℤ × ℤ) :=
  (List.range 72).findSome? (seedProbe roi w h roiCx roiCy rr)

/-- The full seed search (lines 177–203): first at the nominal radius, then
at radius offsets -1, +1, -2, +2. -/
noncomputable def findSeed (roi : ℤ → ℤ → Bool) (w h roiCx roiCy bRadius : ℤ) :
    Option (ℤ × ℤ) :=
  match findSeedAt roi w h roiCx roiCy bRadius with
  | some s => some s
  | none =>
      [(-1 : ℤ), 1, -2, 2].findSome? (fun off => findSeedAt roi w h roiCx roiCy (bRadius + off))

/-- All pixel coordinates of a `w × h` ROI, row-major like the numpy arrays. -/
def gridPts (w h : ℤ) : List (ℤ × ℤ) :=
  (List.range h.toNat).flatMap (fun y => (List.range w.toNat).map (fun x => ((x : ℤ), (y : ℤ))))

/-- The pixels of the flood-filled component that survive erasing the disk of
radius `b_radius + 2` around the bubble centre (lines 214–221). `component`
is the flood-filled connected component of the seed (the `flood_img == 128`
image of lines 205–212); its pixel-level computation by `cv2.floodFill` is
taken as a parameter since no claim constrains it. -/
def erasedPts (component : ℤ → ℤ → Bool) (w h roiCx roiCy bRadius : ℤ) : List (ℤ × ℤ) :=
  (gridPts w h).filter (fun p =>
    component p.1 p.2 && decide ((bRadius + 2) ^ 2 < (p.1 - roiCx) ^ 2 + (p.2 - roiCy) ^ 2))

/-- `harris.max()` over the ROI (line 227). `harris` is the Harris response
image computed by `cv2.cornerHarris`, taken as an abstract function. Starting
the fold at 0 only matters when every response is nonpositive; then both the
true maximum and this fold make the `h_max <= 0` branch taken, and the value
is not used further on that branch. -/
noncomputable def harrisMax (harris : ℤ → ℤ → ℝ) (w h : ℤ) : ℝ :=
  ((gridPts w h).map (fun p => harris p.1 p.2)).foldr max 0

/-- `np.where(harris > 0.01 * h_max)` (lines 241–242): the corner pixels. -/
noncomputable def cornerPts (harris : ℤ → ℤ → ℝ) (w h : ℤ) : List (ℤ × ℤ) :=
  (gridPts w h).filter (fun p => decide (0.01 * harrisMax harris w h < harris p.1 p.2))

/-- The contribution of one corner pixel to `(sum_dx, sum_dy, total_weight)`
(lines 250–264): zero when the distance window `[0.3 r, 3 r]` rejects it,
otherwise the response times the edge-proximity weight. -/
noncomputable def cornerContrib (harris : ℤ → ℤ → ℝ) (roiCx roiCy bRadius : ℤ)
    (p : ℤ × ℤ) : ℝ × ℝ × ℝ :=
  let dx : ℝ := (p.1 : ℝ) - (roiCx : ℝ)
  let dy : ℝ := (p.2 : ℝ) - (roiCy : ℝ)
  let dist := Real.sqrt (dx * dx + dy * dy)
  if dist < (bRadius : ℝ) * 0.3 ∨ (bRadius : ℝ) * 3.0 < dist then (0, 0, 0)
  else
    let w := harris p.1 p.2 * max 0.1 (1 - |dist - (bRadius : ℝ)| / ((bRadius : ℝ) * 1.5))
    (dx * w, dy * w, w)

/-- `(sum_dx, sum_dy, total_weight)` accumulated over the corner pixels
(lines 246–264). -/
noncomputable def cornerSums (harris : ℤ → ℤ → ℝ) (w h roiCx roiCy bRadius : ℤ) : ℝ × ℝ × ℝ :=
  (((cornerPts harris w h).map (fun p => (cornerContrib harris roiCx roiCy bRadius p).1)).sum,
   ((cornerPts harris w h).map (fun p => (cornerContrib harris roiCx roiCy bRadius p).2.1)).sum,
   ((cornerPts harris w h).map (fun p => (cornerContrib harris roiCx roiCy bRadius p).2.2)).sum)

/-- The fallback vector `pts.mean(axis=0) - (roi_cx, roi_cy)` (lines 229–236
and 267–274). -/
noncomputable def centroidVec (pts : List (ℤ × ℤ)) (roiCx roiCy : ℤ) : ℝ × ℝ :=
  ((pts.map (fun p => (p.1 : ℝ))).sum / (pts.length : ℝ) - (roiCx : ℝ),
   (pts.map (fun p => (p.2 : ℝ))).sum / (pts.length : ℝ) - (roiCy : ℝ))

/-- The shared normalisation tail (lines 236–239, 274–277 and 279–282):
`length = sqrt(dx*dx + dy*dy)`; report no direction when `length < 1`, else
return the unit vector. -/
noncomputable def normalizeLen (v : ℝ × ℝ) : Option (ℝ × ℝ) :=
  if Real.sqrt (v.1 * v.1 + v.2 * v.2) < 1 then none
  else some (v.1 / Real.sqrt (v.1 * v.1 + v.2 * v.2), v.2 / Real.sqrt (v.1 * v.1 + v.2 * v.2))

/-- The centroid fallback (duplicated at lines 228–239 and 267–277 of the
source): `none` when no pixels remain, else the normalised centroid vector. -/
noncomputable def centroidDir (pts : List (ℤ × ℤ)) (roiCx roiCy : ℤ) : Option (ℝ × ℝ) :=
  if pts.length = 0 then none else normalizeLen (centroidVec pts roiCx roiCy)

/-- `_find_triangle_direction` (lines 138–282). `blueMask` is the page's blue
mask, `component` the flood-filled component (see `erasedPts`), `harris` the
Harris response image (see `harrisMax`); the geometric control flow — ROI
bailout, seed search, disk erasure and pixel count, fallback chain and
normalisation — is modelled in full. -/
noncomputable def findTriangleDirection (blueMask component : ℤ → ℤ → Bool)
    (harris : ℤ → ℤ → ℝ) (bcx bcy bRadius : ℤ) (allBubbles : List (ℤ × ℤ × ℤ))
    (selfIdx : ℕ) (imgW imgH : ℤ) : Option (ℝ × ℝ) :=
  let roi := roiOf bcx bcy bRadius imgW imgH
  if roiDegenerate roi then none
  else
    match findSeed (erasedOthersMask blueMask allBubbles selfIdx roi) roi.wd roi.ht
        (bcx - roi.x1) (bcy - roi.y1) bRadius with
    | none => none
    | some _ =>
        let pts := erasedPts component roi.wd roi.ht (bcx - roi.x1) (bcy - roi.y1) bRadius
        if pts.length < 3 then none
        else if harrisMax harris roi.wd roi.ht ≤ 0 then
          centroidDir pts (bcx - roi.x1) (bcy - roi.y1)
        else if cornerPts harris roi.wd roi.ht = [] then none
        else if (cornerSums harris roi.wd roi.ht (bcx - roi.x1) (bcy - roi.y1) bRadius).2.2 <
            1e-6 then
          centroidDir pts (bcx - roi.x1) (bcy - roi.y1)
        else
          normalizeLen
            ((cornerSums harris roi.wd roi.ht (bcx - roi.x1) (bcy - roi.y1) bRadius).1,
             (cornerSums harris roi.wd roi.ht (bcx - roi.x1) (bcy - roi.y1) bRadius).2.1)

/-- The seed-search outcome of `_find_triangle_direction`, wired to the same
ROI and erased mask as `findTriangleDirection`. -/
noncomputable def tracerSeed (blueMask : ℤ → ℤ → Bool) (bcx bcy bRadius : ℤ)
    (allBubbles : List (ℤ × ℤ × ℤ)) (selfIdx : ℕ) (imgW imgH : ℤ) : Option (ℤ × ℤ) :=
  findSeed (erasedOthersMask blueMask allBubbles selfIdx (roiOf bcx bcy bRadius imgW imgH))
    (roiOf bcx bcy bRadius imgW imgH).wd (roiOf bcx bcy bRadius imgW imgH).ht
    (bcx - (roiOf bcx bcy bRadius imgW imgH).x1)
    (bcy - (roiOf bcx bcy bRadius imgW imgH).y1) bRadius

/-- The pixel count remaining after the disk erasure, wired like
`findTriangleDirection`. -/
def tracerRemaining (component : ℤ → ℤ → Bool) (bcx bcy bRadius imgW imgH : ℤ) : ℕ :=
  (erasedPts component (roiOf bcx bcy bRadius imgW imgH).wd
    (roiOf bcx bcy bRadius imgW imgH).ht (bcx - (roiOf bcx bcy bRadius imgW imgH).x1)
    (bcy - (roiOf bcx bcy bRadius imgW imgH).y1) bRadius).length

/-- The vector `_find_triangle_direction` hands to its final normalisation:
the corner-weighted accumulated vector, or the centroid fallback vector when
the Harris maximum is nonpositive or the total weight is negligible. -/
noncomputable def tracerFinalVec (component : ℤ → ℤ → Bool) (harris : ℤ → ℤ → ℝ)
    (bcx bcy bRadius imgW imgH : ℤ) : ℝ × ℝ :=
  let roi := roiOf bcx bcy bRadius imgW imgH
  let pts := erasedPts component roi.wd roi.ht (bcx - roi.x1) (bcy - roi.y1) bRadius
  if harrisMax harris roi.wd roi.ht ≤ 0 then centroidVec pts (bcx - roi.x1) (bcy - roi.y1)
  else if (cornerSums harris roi.wd roi.ht (bcx - roi.x1) (bcy - roi.y1) bRadius).2.2 <
      1e-6 then
    centroidVec pts (bcx - roi.x1) (bcy - roi.y1)
  else
    ((cornerSums harris roi.wd roi.ht (bcx - roi.x1) (bcy - roi.y1) bRadius).1,
     (cornerSums harris roi.wd roi.ht (bcx - roi.x1) (bcy - roi.y1) bRadius).2.1)

/-- `bubble_info` entry of `trace_and_expand` lines 42–49: centre and radius
recovered from a region's bounding box. -/
def bubbleCenterRadius (b : Region) : ℤ × ℤ × ℤ :=
  (b.boundingBox.x + b.boundingBox.width.fdiv 2,
   b.boundingBox.y + b.boundingBox.height.fdiv 2,
   b.boundingBox.width.fdiv 2)

/-- `trace_and_expand` (lines 33–93). `componentOf i` and `harrisOf i` are the
flood-fill component and Harris response for the `i`-th bubble's tracing call
(see `erasedPts` and `harrisMax`). `bubble_info[i]` equals
`bubbleCenterRadius` of the `i`-th bubble, so the per-bubble loop recomputes
it from the region while the whole list is passed on for neighbour erasure. -/
noncomputable def traceAndExpand (blueMask : ℤ → ℤ → Bool)
    (componentOf : ℕ → ℤ → ℤ → Bool) (harrisOf : ℕ → ℤ → ℤ → ℝ)
    (bubbles : List Region) (imgW imgH : ℤ) : List Region :=
  bubbles.enum.map (fun ib =>
    let i := ib.1
    let b := ib.2
    let info := bubbleCenterRadius b
    match findTriangleDirection blueMask (componentOf i) (harrisOf i) info.1 info.2.1
        info.2.2 (bubbles.map bubbleCenterRadius) i imgW imgH with
    | none =>
        ⟨b.id, b.pageNumber, 1, b.boundingBox, b.bubbleNumber, b.label,
          b.croppedImagePath, none, none⟩
    | some d =>
        let cap := placeCaptureBox info.1 info.2.1 info.2.2 d.1 d.2
          CAPTURE_STEPS.headI.1 CAPTURE_STEPS.headI.2 imgW imgH
        ⟨b.id, b.pageNumber, 1,
          ⟨min b.boundingBox.x cap.x, min b.boundingBox.y cap.y,
            max (b.boundingBox.x + b.boundingBox.width) (cap.x + cap.width) -
              min b.boundingBox.x cap.x,
            max (b.boundingBox.y + b.boundingBox.height) (cap.y + cap.height) -
              min b.boundingBox.y cap.y⟩,
          b.bubbleNumber, b.label, b.croppedImagePath, some cap, some d⟩)

/-- Blue mask used to instantiate the tracer theorems: every pixel blue. -/
def maskW : ℤ → ℤ → Bool := fun _ _ => true

/-- Flood component used to instantiate the unit-direction theorem: three
pixels to the right of the bubble. -/
def componentW1 : ℤ → ℤ → Bool := fun x y => x == 11 && (y == 5 || y == 6 || y == 7)

/-- Flood component used to instantiate the degenerate-vector case: four
pixels placed symmetrically around the bubble centre, whose centroid is the
centre itself. -/
def componentW2 : ℤ → ℤ → Bool :=
  fun x y => ((x == 1 || x == 11) && y == 6) || (x == 6 && (y == 1 || y == 11))

/-- Harris response used to instantiate the tracer theorems: identically 0,
which drives the tracer into its centroid fallback. -/
noncomputable def harrisW : ℤ → ℤ → ℝ := fun _ _ => 0

theorem sqDist_comm (x1 y1 x2 y2 : ℤ) : sqDist x1 y1 x2 y2 = sqDist x2 y2 x1 y1 := by
  unfold sqDist
  ring

theorem dedupPass_mem (l : List PassedCand) :
    ∀ c ∈ dedupPass l, ∃ p ∈ l, c = (p.cx, p.cy, p.r) := by
  induction l using dedupPass.induct with
  | case1 =>
      intro c hc
      simp [dedupPass] at hc
  | case2 best rest ih =>
      intro c hc
      rw [dedupPass] at hc
      rcases List.mem_cons.mp hc with h | h
      · exact ⟨best, List.mem_cons_self _ _, h⟩
      · obtain ⟨p, hp, rfl⟩ := ih c h
        exact ⟨p, List.mem_cons_of_mem _ (List.mem_filter.mp hp).1, rfl⟩

theorem dedupPass_pairwise (l : List PassedCand) :
    (dedupPass l).Pairwise (fun a b => 625 ≤ sqDist a.1 a.2.1 b.1 b.2.1) := by
  induction l using dedupPass.induct with
  | case1 => simp [dedupPass]
  | case2 best rest ih =>
      rw [dedupPass]
      refine List.Pairwise.cons ?_ ih
      intro c hc
      obtain ⟨p, hp, rfl⟩ := dedupPass_mem _ c hc
      have h := (List.mem_filter.mp hp).2
      simpa using of_decide_eq_true h

theorem scanStep_total_zero (ringTotal ringBlue : ℤ → ℕ) (st : ℚ × ℤ) (r : ℤ)
    (h : ringTotal r = 0) : scanStep ringTotal ringBlue st r = st := by
  simp [scanStep, h]

theorem foldl_scanStep_spec (ringTotal ringBlue : ℤ → ℕ) (l : List ℤ) (st : ℚ × ℤ) :
    (l.foldl (scanStep ringTotal ringBlue) st = st ∧
      ∀ s ∈ l, ringTotal s ≠ 0 →
        (ringBlue s : ℚ) / (ringTotal s : ℚ) ≤ st.1) ∨
    ((l.foldl (scanStep ringTotal ringBlue) st).2 ∈ l ∧
      ringTotal (l.foldl (scanStep ringTotal ringBlue) st).2 ≠ 0 ∧
      (l.foldl (scanStep ringTotal ringBlue) st).1 =
        (ringBlue (l.foldl (scanStep ringTotal ringBlue) st).2 : ℚ) /
          (ringTotal (l.foldl (scanStep ringTotal ringBlue) st).2 : ℚ) ∧
      st.1 < (l.foldl (scanStep ringTotal ringBlue) st).1 ∧
      ∀ s ∈ l, ringTotal s ≠ 0 →
        (ringBlue s : ℚ) / (ringTotal s : ℚ) ≤
          (l.foldl (scanStep ringTotal ringBlue) st).1) := by
  induction l generalizing st with
  | nil =>
      left
      exact ⟨rfl, by simp⟩
  | cons r t ih =>
      rw [List.foldl_cons]
      by_cases h0 : ringTotal r = 0
      · rw [scanStep_total_zero ringTotal ringBlue st r h0]
        rcases ih st with ⟨heq, hb⟩ | ⟨hm, hn0, heq, hlt, hb⟩
        · left
          refine ⟨heq, ?_⟩
          intro s hs hsn
          rcases List.mem_cons.mp hs with rfl | hs'
          · exact absurd h0 hsn
          · exact hb s hs' hsn
        · right
          refine ⟨List.mem_cons_of_mem _ hm, hn0, heq, hlt, ?_⟩
          intro s hs hsn
          rcases List.mem_cons.mp hs with rfl | hs'
          · exact absurd h0 hsn
          · exact hb s hs' hsn
      · by_cases h1 : st.1 < (ringBlue r : ℚ) / (ringTotal r : ℚ)
        · have hstep : scanStep ringTotal ringBlue st r =
              ((ringBlue r : ℚ) / (ringTotal r : ℚ), r) := by
            simp [scanStep, h0, h1]
          rw [hstep]
          rcases ih ((ringBlue r : ℚ) / (ringTotal r : ℚ), r) with
            ⟨heq, hb⟩ | ⟨hm, hn0, heq, hlt, hb⟩
          · right
            rw [heq]
            refine ⟨List.mem_cons_self _ _, h0, rfl, h1, ?_⟩
            intro s hs hsn
            rcases List.mem_cons.mp hs with rfl | hs'
            · exact le_refl _
            · exact hb s hs' hsn
          · right
            refine ⟨List.mem_cons_of_mem _ hm, hn0, heq, lt_trans h1 hlt, ?_⟩
            intro s hs hsn
            rcases List.mem_cons.mp hs with rfl | hs'
            · exact le_of_lt hlt
            · exact hb s hs' hsn
        · have hstep : scanStep ringTotal ringBlue st r = st := by
            simp [scanStep, h0, h1]
          rw [hstep]
          rcases ih st with ⟨heq, hb⟩ | ⟨hm, hn0, heq, hlt, hb⟩
          · left
            refine ⟨heq, ?_⟩
            intro s hs hsn
            rcases List.mem_cons.mp hs with rfl | hs'
            · exact not_lt.mp h1
            · exact hb s hs' hsn
          · right
            refine ⟨List.mem_cons_of_mem _ hm, hn0, heq, hlt, ?_⟩
            intro s hs hsn
            rcases List.mem_cons.mp hs with rfl | hs'
            · exact le_of_lt (lt_of_le_of_lt (not_lt.mp h1) hlt)
            · exact hb s hs' hsn

/-- C2: a candidate that survives gate 1 has a verified radius that lies in
the scanned range `[8, min(26, local ROI bound)]`, rasterises to a nonempty
ring, and maximises the blue fraction of its ring over every scanned radius
with a nonempty ring; gate 1 passes only with the best fraction at least
0.15 and the best radius in `[10, 22]`, and that best radius is the verified
radius carried into the output. -/
theorem gate1_verified_radius_spec (ringTotal ringBlue : ℤ → ℕ)
    (radius roiCx roiCy roiW roiH : ℤ) (vr : ℤ) (br : ℚ)
    (h : gate1 ringTotal ringBlue radius roiCx roiCy roiW roiH = some (vr, br)) :
    15 / 100 ≤ br ∧ 10 ≤ vr ∧ vr ≤ 22 ∧
    vr ∈ scanRadii 8 (gate1ScanMax roiCx roiCy roiW roiH) ∧
    ringTotal vr ≠ 0 ∧ br = (ringBlue vr : ℚ) / (ringTotal vr : ℚ) ∧
    ∀ s ∈ scanRadii 8 (gate1ScanMax roiCx roiCy roiW roiH),
      ringTotal s ≠ 0 → (ringBlue s : ℚ) / (ringTotal s : ℚ) ≤ br := by
  simp only [gate1] at h
  split_ifs at h with hlo hrange
  have hpair : vr = (scanBest ringTotal ringBlue radius 8
      (gate1ScanMax roiCx roiCy roiW roiH)).2 ∧
      br = (scanBest ringTotal ringBlue radius 8
        (gate1ScanMax roiCx roiCy roiW roiH)).1 := by
    have := Option.some.inj h
    exact ⟨(congrArg Prod.fst this).symm, (congrArg Prod.snd this).symm⟩
  obtain ⟨hvr, hbr⟩ := hpair
  have hge : 15 / 100 ≤ br := by
    rw [hbr]
    exact not_lt.mp hlo
  have hlohi : 10 ≤ vr ∧ vr ≤ 22 := by
    rw [hvr]
    push_neg at hrange
    exact ⟨not_lt.mp (by simpa using hrange.1), hrange.2⟩
  rcases foldl_scanStep_spec ringTotal ringBlue
      (scanRadii 8 (gate1ScanMax roiCx roiCy roiW roiH)) (0, radius) with
    ⟨heq, _⟩ | ⟨hm, hn0, heq, _, hb⟩
  · exfalso
    have : br = 0 := by
      rw [hbr]
      unfold scanBest
      rw [heq]
    rw [this] at hge
    norm_num at hge
  · unfold scanBest at hvr hbr
    refine ⟨hge, hlohi.1, hlohi.2, ?_, ?_, ?_, ?_⟩
    · rw [hvr]
      exact hm
    · rw [hvr]
      exact hn0
    · rw [hvr, hbr]
      exact heq
    · intro s hs hsn
      rw [hbr]
      exact hb s hs hsn

theorem scanStep_keep (rt rb : ℤ → ℕ) (st : ℚ × ℤ) (r : ℤ)
    (h : ¬ st.1 < (rb r : ℚ) / (rt r : ℚ)) : scanStep rt rb st r = st := by
  simp [scanStep, h]

theorem scanStep_update (rt rb : ℤ → ℕ) (st : ℚ × ℤ) (r : ℤ) (q : ℚ)
    (h0 : ¬ rt r = 0) (h1 : st.1 < (rb r : ℚ) / (rt r : ℚ))
    (hq : (rb r : ℚ) / (rt r : ℚ) = q) : scanStep rt rb st r = (q, r) := by
  rw [scanStep, if_neg h0, if_pos h1, hq]

/-- Concrete instantiation of the gate-1 specification: with a ring of 100
pixels at every radius and 20 blue pixels only at radius 15, the candidate
passes gate 1 with verified radius 15 and best fraction 1/5. -/
theorem gate1_verified_radius_spec_witness :
    (15 : ℚ) / 100 ≤ 1 / 5 ∧ (15 : ℤ) ∈ scanRadii 8 (gate1ScanMax 40 40 100 100) ∧
    (10 : ℤ) ≤ 15 ∧ (15 : ℤ) ≤ 22 := by
  have hb : scanBest ringTW ringBW 12 8 (gate1ScanMax 40 40 100 100) = (1 / 5, 15) := by
    have hradii : scanRadii 8 (gate1ScanMax 40 40 100 100) =
        [8, 9, 10, 11, 12, 13, 14, 15, 16, 17, 18, 19, 20, 21, 22, 23, 24, 25, 26] := by
      decide
    rw [scanBest, hradii]
    simp only [List.foldl_cons, List.foldl_nil]
    rw [scanStep_keep ringTW ringBW (0, 12) 8 (by norm_num [ringTW, ringBW]),
      scanStep_keep ringTW ringBW (0, 12) 9 (by norm_num [ringTW, ringBW]),
      scanStep_keep ringTW ringBW (0, 12) 10 (by norm_num [ringTW, ringBW]),
      scanStep_keep ringTW ringBW (0, 12) 11 (by norm_num [ringTW, ringBW]),
      scanStep_keep ringTW ringBW (0, 12) 12 (by norm_num [ringTW, ringBW]),
      scanStep_keep ringTW ringBW (0, 12) 13 (by norm_num [ringTW, ringBW]),
      scanStep_keep ringTW ringBW (0, 12) 14 (by norm_num [ringTW, ringBW]),
      scanStep_update ringTW ringBW (0, 12) 15 (1 / 5) (by norm_num [ringTW])
        (by norm_num [ringTW, ringBW]) (by norm_num [ringTW, ringBW]),
      scanStep_keep ringTW ringBW (1 / 5, 15) 16 (by norm_num [ringTW, ringBW]),
      scanStep_keep ringTW ringBW (1 / 5, 15) 17 (by norm_num [ringTW, ringBW]),
      scanStep_keep ringTW ringBW (1 / 5, 15) 18 (by norm_num [ringTW, ringBW]),
      scanStep_keep ringTW ringBW (1 / 5, 15) 19 (by norm_num [ringTW, ringBW]),
      scanStep_keep ringTW ringBW (1 / 5, 15) 20 (by norm_num [ringTW, ringBW]),
      scanStep_keep ringTW ringBW (1 / 5, 15) 21 (by norm_num [ringTW, ringBW]),
      scanStep_keep ringTW ringBW (1 / 5, 15) 22 (by norm_num [ringTW, ringBW]),
      scanStep_keep ringTW ringBW (1 / 5, 15) 23 (by norm_num [ringTW, ringBW]),
      scanStep_keep ringTW ringBW (1 / 5, 15) 24 (by norm_num [ringTW, ringBW]),
      scanStep_keep ringTW ringBW (1 / 5, 15) 25 (by norm_num [ringTW, ringBW]),
      scanStep_keep ringTW ringBW (1 / 5, 15) 26 (by norm_num [ringTW, ringBW])]
  have h : gate1 ringTW ringBW 12 40 40 100 100 = some (15, 1 / 5) := by
    simp only [gate1, hb]
    norm_num
  obtain ⟨h1, h2, h3, h4, _⟩ :=
    gate1_verified_radius_spec ringTW ringBW 12 40 40 100 100 15 (1 / 5) h
  exact ⟨h1, h4, h2, h3⟩

/-- C1: every page's verified-bubble list — the result of `_verify_bubbles`'
sort-by-descending-score greedy suppression, followed by `detect_bubbles`'
reading-order sort — is pairwise separated by at least 25 px: any two
distinct retained bubbles have squared centre distance at least 625. -/
theorem verified_bubbles_min_separation (passed : List PassedCand) :
    (sortVerified (verifyDedup passed)).Pairwise
      (fun a b => 625 ≤ sqDist a.1 a.2.1 b.1 b.2.1) := by
  have hperm : (sortVerified (verifyDedup passed)).Perm (verifyDedup passed) :=
    List.mergeSort_perm _ _
  refine (hperm.pairwise_iff ?_).mpr (dedupPass_pairwise _)
  intro x y hxy
  rw [sqDist_comm]
  exact hxy

theorem keyLe_trans (k1 k2 k3 : ℤ × ℤ) (h12 : keyLe k1 k2) (h23 : keyLe k2 k3) :
    keyLe k1 k3 := by
  unfold keyLe at *
  rcases h12 with h | ⟨he, hx⟩ <;> rcases h23 with h' | ⟨he', hx'⟩
  · exact Or.inl (lt_trans h h')
  · exact Or.inl (he' ▸ h)
  · exact Or.inl (he ▸ h')
  · exact Or.inr ⟨he.trans he', le_trans hx hx'⟩

theorem keyLe_total (k1 k2 : ℤ × ℤ) : keyLe k1 k2 ∨ keyLe k2 k1 := by
  unfold keyLe
  rcases lt_trichotomy k1.1 k2.1 with h | h | h
  · exact Or.inl (Or.inl h)
  · rcases le_total k1.2 k2.2 with h2 | h2
    · exact Or.inl (Or.inr ⟨h, h2⟩)
    · exact Or.inr (Or.inr ⟨h.symm, h2⟩)
  · exact Or.inr (Or.inl h)

theorem sortVerified_pairwise (l : List (ℤ × ℤ × ℤ)) :
    (sortVerified l).Pairwise (fun a b => keyLe (bubbleSortKey a) (bubbleSortKey b)) := by
  have h := @List.sorted_mergeSort (ℤ × ℤ × ℤ)
    (fun a b => decide (keyLe (bubbleSortKey a) (bubbleSortKey b)))
    (fun a b c hab hbc =>
      decide_eq_true (keyLe_trans _ _ _ (of_decide_eq_true hab) (of_decide_eq_true hbc)))
    (fun a b => by
      rcases keyLe_total (bubbleSortKey a) (bubbleSortKey b) with h | h <;>
        simp [h])
    l
  exact h.imp (fun hab => of_decide_eq_true hab)

theorem forall₂_enumFrom_map {α β : Type} (f : ℕ × α → β) (R : α → β → Prop)
    (h : ∀ n a, R a (f (n, a))) : ∀ (l : List α) (n : ℕ),
    List.Forall₂ R l ((l.enumFrom n).map f) := by
  intro l
  induction l with
  | nil => intro n; simp
  | cons a t ih =>
      intro n
      rw [List.enumFrom_cons, List.map_cons]
      exact List.Forall₂.cons (h n a) (ih (n + 1))

/-- C7: `detect_bubbles` assigns `bubbleNumber = 1..N` in the order obtained by
sorting the verified bubbles by `(cy // 60, cx)`: the output's bubble numbers
are exactly `1..N` positionally, the output order corresponds one-to-one to
the key-sorted bubble list (witnessed by the bounding-box corners derived
from each sorted bubble), the sorted list is monotone in the key, and the
assigned numbers are strictly increasing along the output. -/
theorem detect_regions_reading_order (verified : List (ℤ × ℤ × ℤ))
    (pageNumber imgW imgH : ℤ) :
    ((detectRegions verified pageNumber imgW imgH).map (fun r => r.bubbleNumber) =
      (List.range' 1 verified.length).map (fun n : ℕ => some (n : ℤ))) ∧
    (sortVerified verified).Pairwise
      (fun a b => keyLe (bubbleSortKey a) (bubbleSortKey b)) ∧
    List.Forall₂ (fun b r => r.boundingBox.x = max 0 (b.1 - b.2.2) ∧
        r.boundingBox.y = max 0 (b.2.1 - b.2.2))
      (sortVerified verified) (detectRegions verified pageNumber imgW imgH) ∧
    (detectRegions verified pageNumber imgW imgH).Pairwise
      (fun r s => ∃ m n : ℤ, r.bubbleNumber = some m ∧ s.bubbleNumber = some n ∧ m < n) := by
  have hmapnum : (detectRegions verified pageNumber imgW imgH).map (fun r => r.bubbleNumber) =
      (List.range' 1 verified.length).map (fun n : ℕ => some (n : ℤ)) := by
    unfold detectRegions
    rw [List.map_map]
    show ((sortVerified verified).enum).map
        (fun ib : ℕ × ℤ × ℤ × ℤ => some ((ib.1 : ℤ) + 1)) = _
    have hfst : ((sortVerified verified).enum).map
          (fun ib : ℕ × ℤ × ℤ × ℤ => some ((ib.1 : ℤ) + 1)) =
        (((sortVerified verified).enum).map Prod.fst).map
          (fun i : ℕ => some ((i : ℤ) + 1)) := by
      rw [List.map_map]
      rfl
    rw [hfst, List.enum_map_fst]
    have hlen : (sortVerified verified).length = verified.length := by
      unfold sortVerified
      exact List.length_mergeSort verified
    rw [hlen, List.range'_eq_map_range, List.map_map]
    refine List.map_congr_left ?_
    intro i _
    have h1 : ((1 + i : ℕ) : ℤ) = (i : ℤ) + 1 := by push_cast; ring
    simp [Function.comp, h1]
  refine ⟨hmapnum, sortVerified_pairwise verified, ?_, ?_⟩
  · exact forall₂_enumFrom_map _ _ (fun n b => ⟨rfl, rfl⟩) (sortVerified verified) 0
  · have hrange : ((List.range' 1 verified.length).map (fun k : ℕ => some (k : ℤ))).Pairwise
        (fun o1 o2 => ∃ m n : ℤ, o1 = some m ∧ o2 = some n ∧ m < n) := by
      rw [List.pairwise_map]
      exact List.Pairwise.imp
        (fun hab => ⟨_, _, rfl, rfl, by exact_mod_cast hab⟩)
        (List.pairwise_lt_range' 1 verified.length)
    rw [← hmapnum, List.pairwise_map] at hrange
    exact hrange

/-- C10: every region produced by `detect_bubbles` has a bounding box clamped
inside the page — nonnegative corner, right/bottom edges within the page —
and no wider or taller than twice the verified radius of the bubble it was
built from. -/
theorem detect_regions_bbox_clamped (verified : List (ℤ × ℤ × ℤ))
    (pageNumber imgW imgH : ℤ) :
    List.Forall₂ (fun b r =>
        0 ≤ r.boundingBox.x ∧ 0 ≤ r.boundingBox.y ∧
        r.boundingBox.x + r.boundingBox.width ≤ imgW ∧
        r.boundingBox.y + r.boundingBox.height ≤ imgH ∧
        r.boundingBox.width ≤ 2 * b.2.2 ∧ r.boundingBox.height ≤ 2 * b.2.2)
      (sortVerified verified) (detectRegions verified pageNumber imgW imgH) := by
  refine forall₂_enumFrom_map _ _ ?_ (sortVerified verified) 0
  intro n b
  dsimp only
  refine ⟨le_max_left _ _, le_max_left _ _, ?_, ?_, ?_, ?_⟩
  · have h := min_le_right (b.2.2 * 2) (imgW - max 0 (b.1 - b.2.2))
    omega
  · have h := min_le_right (b.2.2 * 2) (imgH - max 0 (b.2.1 - b.2.2))
    omega
  · have h := min_le_left (b.2.2 * 2) (imgW - max 0 (b.1 - b.2.2))
    omega
  · have h := min_le_left (b.2.2 * 2) (imgH - max 0 (b.2.1 - b.2.2))
    omega

theorem pyTrunc_intCast (n : ℤ) : pyTrunc ((n : ℤ) : ℝ) = n := by
  unfold pyTrunc
  split_ifs
  · exact Int.ceil_intCast n
  · exact Int.floor_intCast n

theorem anchorHalf_eq : anchorHalf = 64 := by decide

theorem boxDist_arith (r : ℤ) : boxDist r = r + 68 := by
  rw [boxDist, anchorHalf_eq]
  ring

theorem cornerMinDot_shift (bcx bcy : ℤ) (dx dy : ℝ) (c : ℝ × ℝ) (halfW halfH : ℤ)
    (t : ℝ) :
    cornerMinDot bcx bcy dx dy (c.1 + dx * t, c.2 + dy * t) halfW halfH =
      cornerMinDot bcx bcy dx dy c halfW halfH + t * (dx ^ 2 + dy ^ 2) := by
  unfold cornerMinDot
  dsimp only
  have h1 : (c.1 + dx * t - (halfW : ℝ) - (bcx : ℝ)) * dx +
      (c.2 + dy * t - (halfH : ℝ) - (bcy : ℝ)) * dy =
      ((c.1 - (halfW : ℝ) - (bcx : ℝ)) * dx + (c.2 - (halfH : ℝ) - (bcy : ℝ)) * dy) +
        t * (dx ^ 2 + dy ^ 2) := by ring
  have h2 : (c.1 + dx * t + (halfW : ℝ) - (bcx : ℝ)) * dx +
      (c.2 + dy * t - (halfH : ℝ) - (bcy : ℝ)) * dy =
      ((c.1 + (halfW : ℝ) - (bcx : ℝ)) * dx + (c.2 - (halfH : ℝ) - (bcy : ℝ)) * dy) +
        t * (dx ^ 2 + dy ^ 2) := by ring
  have h3 : (c.1 + dx * t - (halfW : ℝ) - (bcx : ℝ)) * dx +
      (c.2 + dy * t + (halfH : ℝ) - (bcy : ℝ)) * dy =
      ((c.1 - (halfW : ℝ) - (bcx : ℝ)) * dx + (c.2 + (halfH : ℝ) - (bcy : ℝ)) * dy) +
        t * (dx ^ 2 + dy ^ 2) := by ring
  have h4 : (c.1 + dx * t + (halfW : ℝ) - (bcx : ℝ)) * dx +
      (c.2 + dy * t + (halfH : ℝ) - (bcy : ℝ)) * dy =
      ((c.1 + (halfW : ℝ) - (bcx : ℝ)) * dx + (c.2 + (halfH : ℝ) - (bcy : ℝ)) * dy) +
        t * (dx ^ 2 + dy ^ 2) := by ring
  rw [h1, h2, h3, h4]
  rw [min_add_add_right ((c.1 - (halfW : ℝ) - (bcx : ℝ)) * dx +
      (c.2 - (halfH : ℝ) - (bcy : ℝ)) * dy)
    ((c.1 + (halfW : ℝ) - (bcx : ℝ)) * dx + (c.2 - (halfH : ℝ) - (bcy : ℝ)) * dy)
    (t * (dx ^ 2 + dy ^ 2))]
  rw [min_add_add_right ((c.1 - (halfW : ℝ) - (bcx : ℝ)) * dx +
      (c.2 + (halfH : ℝ) - (bcy : ℝ)) * dy)
    ((c.1 + (halfW : ℝ) - (bcx : ℝ)) * dx + (c.2 + (halfH : ℝ) - (bcy : ℝ)) * dy)
    (t * (dx ^ 2 + dy ^ 2))]
  rw [min_add_add_right]

/-- C6: for a unit direction, after the doubling-back adjustment of
`place_capture_box` and before page clamping, every corner of the capture box
has nonnegative projection onto the direction measured from the bubble
centre — the box never doubles back over the bubble. -/
theorem capture_box_no_double_back (bcx bcy bRadius : ℤ) (dx dy : ℝ)
    (width height : ℤ) (hunit : dx ^ 2 + dy ^ 2 = 1) :
    0 ≤ cornerMinDot bcx bcy dx dy (placedCenter bcx bcy bRadius dx dy width height)
      (width.fdiv 2) (height.fdiv 2) := by
  simp only [placedCenter]
  split_ifs with h
  · rw [cornerMinDot_shift, hunit]
    linarith
  · exact not_lt.mp h

/-- Concrete instantiation of the no-double-back theorem at the unit direction
(0, 1), bubble centre (100, 100), radius 12, box size 256×128. -/
theorem capture_box_no_double_back_witness :
    (0 : ℝ) ^ 2 + (1 : ℝ) ^ 2 = 1 ∧
    0 ≤ cornerMinDot 100 100 0 1 (placedCenter 100 100 12 0 1 256 128)
      ((256 : ℤ).fdiv 2) ((128 : ℤ).fdiv 2) :=
  ⟨by norm_num, capture_box_no_double_back 100 100 12 0 1 256 128 (by norm_num)⟩

/-- C4 (amended): the four capture boxes share the same anchor centre only
before the doubling-back adjustment: for a unit direction the pre-adjustment
centre projects to exactly `bubbleRadius + 64 + 4` along the direction from
the bubble centre, regardless of the requested box size; when no corner
projects negatively the final pre-clamp centre is that anchor, but otherwise
the adjustment pushes the centre a further `-minDot + 1` along the direction,
so the four post-adjustment centres need not agree within ±1 px. -/
theorem capture_box_anchor_amended (bcx bcy bRadius : ℤ) (dx dy : ℝ) (width height : ℤ)
    (hunit : dx ^ 2 + dy ^ 2 = 1) :
    (((boxCenterInit bcx bcy bRadius dx dy).1 - (bcx : ℝ)) * dx +
        ((boxCenterInit bcx bcy bRadius dx dy).2 - (bcy : ℝ)) * dy =
      (bRadius : ℝ) + 64 + 4) ∧
    (¬ cornerMinDot bcx bcy dx dy (boxCenterInit bcx bcy bRadius dx dy)
        (width.fdiv 2) (height.fdiv 2) < 0 →
      placedCenter bcx bcy bRadius dx dy width height = boxCenterInit bcx bcy bRadius dx dy) ∧
    (cornerMinDot bcx bcy dx dy (boxCenterInit bcx bcy bRadius dx dy)
        (width.fdiv 2) (height.fdiv 2) < 0 →
      placedCenter bcx bcy bRadius dx dy width height =
        ((boxCenterInit bcx bcy bRadius dx dy).1 +
            dx * (-cornerMinDot bcx bcy dx dy (boxCenterInit bcx bcy bRadius dx dy)
              (width.fdiv 2) (height.fdiv 2) + 1),
          (boxCenterInit bcx bcy bRadius dx dy).2 +
            dy * (-cornerMinDot bcx bcy dx dy (boxCenterInit bcx bcy bRadius dx dy)
              (width.fdiv 2) (height.fdiv 2) + 1))) := by
  refine ⟨?_, ?_, ?_⟩
  · have hbd : ((boxDist bRadius : ℤ) : ℝ) = (bRadius : ℝ) + 64 + 4 := by
      rw [boxDist_arith]
      push_cast
      ring
    unfold boxCenterInit
    dsimp only
    calc ((bcx : ℝ) + dx * ((boxDist bRadius : ℤ) : ℝ) - (bcx : ℝ)) * dx +
          ((bcy : ℝ) + dy * ((boxDist bRadius : ℤ) : ℝ) - (bcy : ℝ)) * dy =
        (dx ^ 2 + dy ^ 2) * ((boxDist bRadius : ℤ) : ℝ) := by ring
      _ = 1 * ((boxDist bRadius : ℤ) : ℝ) := by rw [hunit]
      _ = (bRadius : ℝ) + 64 + 4 := by rw [one_mul, hbd]
  · intro h
    simp only [placedCenter]
    rw [if_neg h]
  · intro h
    simp only [placedCenter]
    rw [if_pos h]

theorem capture_box_eval_init : boxCenterInit 500 500 15 1 0 = ((583 : ℝ), (500 : ℝ)) := by
  unfold boxCenterInit
  rw [boxDist_arith]
  push_cast
  norm_num [Prod.ext_iff]

theorem capture_box_eval_min128 :
    cornerMinDot 500 500 1 0 ((583 : ℝ), (500 : ℝ)) 64 64 = 19 := by
  unfold cornerMinDot
  push_cast
  norm_num

theorem capture_box_eval_min256 :
    cornerMinDot 500 500 1 0 ((583 : ℝ), (500 : ℝ)) 128 64 = -45 := by
  unfold cornerMinDot
  push_cast
  norm_num

theorem capture_box_eval_center128 :
    placedCenter 500 500 15 1 0 128 128 = ((583 : ℝ), (500 : ℝ)) := by
  simp only [placedCenter]
  rw [show (128 : ℤ).fdiv 2 = 64 from by decide, capture_box_eval_init,
    capture_box_eval_min128, if_neg (by norm_num : ¬ ((19 : ℝ) < 0))]

theorem capture_box_eval_center256 :
    placedCenter 500 500 15 1 0 256 128 = ((629 : ℝ), (500 : ℝ)) := by
  simp only [placedCenter]
  rw [show (256 : ℤ).fdiv 2 = 128 from by decide, show (128 : ℤ).fdiv 2 = 64 from by decide,
    capture_box_eval_init, capture_box_eval_min256,
    if_pos (by norm_num : ((-45 : ℝ) < 0))]
  norm_num [Prod.ext_iff]

/-- C4 counterexample: for bubble centre (500, 500), radius 15 and unit
direction (1, 0), the pre-clamp centres of the 128×128 and the 256×128
capture boxes are (583, 500) and (629, 500) — 46 px apart, not within ±1 px,
because the doubling-back adjustment pushes the wider box further along the
ray. -/
theorem capture_box_anchor_counterexample :
    (1 : ℝ) ^ 2 + (0 : ℝ) ^ 2 = 1 ∧
    1 < |(placedCenter 500 500 15 1 0 256 128).1 -
        (placedCenter 500 500 15 1 0 128 128).1| := by
  rw [capture_box_eval_center128, capture_box_eval_center256]
  norm_num

/-- Concrete instantiation of the amended anchor theorem at bubble centre
(500, 500), radius 15, unit direction (1, 0), box size 128×128: the anchor
projects to 15 + 64 + 4 along the ray and no push happens. -/
theorem capture_box_anchor_amended_witness :
    (1 : ℝ) ^ 2 + (0 : ℝ) ^ 2 = 1 ∧
    (((boxCenterInit 500 500 15 1 0).1 - ((500 : ℤ) : ℝ)) * 1 +
        ((boxCenterInit 500 500 15 1 0).2 - ((500 : ℤ) : ℝ)) * 0 =
      ((15 : ℤ) : ℝ) + 64 + 4) ∧
    placedCenter 500 500 15 1 0 128 128 = boxCenterInit 500 500 15 1 0 := by
  have h := capture_box_anchor_amended 500 500 15 1 0 128 128 (by norm_num)
  refine ⟨by norm_num, h.1, h.2.1 ?_⟩
  rw [show (128 : ℤ).fdiv 2 = 64 from by decide, capture_box_eval_init,
    capture_box_eval_min128]
  norm_num

/-- C5 (amended): the clamped capture box always satisfies `0 ≤ x`, `0 ≤ y`,
`x + width ≤ pageW` and `y + height ≤ pageH`; `width` and `height` can be
negative when the (possibly pushed) box lies entirely beyond one page edge,
so the result is a valid sub-rectangle of the page only when they are
nonnegative. -/
theorem place_capture_box_in_page (bcx bcy bRadius : ℤ) (dx dy : ℝ)
    (width height imgW imgH : ℤ) :
    0 ≤ (placeCaptureBox bcx bcy bRadius dx dy width height imgW imgH).x ∧
    0 ≤ (placeCaptureBox bcx bcy bRadius dx dy width height imgW imgH).y ∧
    (placeCaptureBox bcx bcy bRadius dx dy width height imgW imgH).x +
      (placeCaptureBox bcx bcy bRadius dx dy width height imgW imgH).width ≤ imgW ∧
    (placeCaptureBox bcx bcy bRadius dx dy width height imgW imgH).y +
      (placeCaptureBox bcx bcy bRadius dx dy width height imgW imgH).height ≤ imgH := by
  simp only [placeCaptureBox]
  refine ⟨le_max_left _ _, le_max_left _ _, ?_, ?_⟩
  · have h := min_le_left imgW (pyTrunc
      ((placedCenter bcx bcy bRadius dx dy width height).1 + ((width.fdiv 2 : ℤ) : ℝ)))
    omega
  · have h := min_le_left imgH (pyTrunc
      ((placedCenter bcx bcy bRadius dx dy width height).2 + ((height.fdiv 2 : ℤ) : ℝ)))
    omega

theorem capture_box_eval_center_edge :
    placedCenter 10 500 10 (-1) 0 128 128 = ((-68 : ℝ), (500 : ℝ)) := by
  have hinit : boxCenterInit 10 500 10 (-1) 0 = ((-68 : ℝ), (500 : ℝ)) := by
    unfold boxCenterInit
    rw [boxDist_arith]
    push_cast
    norm_num [Prod.ext_iff]
  have hmin : cornerMinDot 10 500 (-1) 0 ((-68 : ℝ), (500 : ℝ)) 64 64 = 14 := by
    unfold cornerMinDot
    push_cast
    norm_num
  simp only [placedCenter]
  rw [show (128 : ℤ).fdiv 2 = 64 from by decide, hinit, hmin,
    if_neg (by norm_num : ¬ ((14 : ℝ) < 0))]

/-- C5 counterexample: for the in-page bubble centre (10, 500) on a 2000×2000
page, radius 10, unit direction (-1, 0) and the requested 128×128 box, the
clamped rectangle has width -4 < 0 — the box lies entirely beyond the left
page edge, refuting `width ≥ 0`. -/
theorem place_capture_box_width_counterexample :
    ((-1 : ℝ)) ^ 2 + (0 : ℝ) ^ 2 = 1 ∧ (0 : ℤ) ≤ 10 ∧ (10 : ℤ) < 2000 ∧
    (0 : ℤ) ≤ 500 ∧ (500 : ℤ) < 2000 ∧
    (placeCaptureBox 10 500 10 (-1) 0 128 128 2000 2000).width < 0 := by
  refine ⟨by norm_num, by norm_num, by norm_num, by norm_num, by norm_num, ?_⟩
  simp only [placeCaptureBox]
  rw [show (128 : ℤ).fdiv 2 = 64 from by decide, capture_box_eval_center_edge]
  have e1 : ((-68 : ℝ), (500 : ℝ)).1 - ((64 : ℤ) : ℝ) = ((-132 : ℤ) : ℝ) := by
    push_cast
    norm_num
  have e2 : ((-68 : ℝ), (500 : ℝ)).1 + ((64 : ℤ) : ℝ) = ((-4 : ℤ) : ℝ) := by
    push_cast
    norm_num
  rw [e1, e2, pyTrunc_intCast, pyTrunc_intCast]
  decide

theorem normalizeLen_none_iff (v : ℝ × ℝ) :
    normalizeLen v = none ↔ Real.sqrt (v.1 ^ 2 + v.2 ^ 2) < 1 := by
  unfold normalizeLen
  have e : v.1 * v.1 + v.2 * v.2 = v.1 ^ 2 + v.2 ^ 2 := by ring
  rw [e]
  split_ifs with hc
  · simp [hc]
  · simp [hc]

theorem normalizeLen_unit (v d : ℝ × ℝ) (h : normalizeLen v = some d) :
    d.1 ^ 2 + d.2 ^ 2 = 1 := by
  unfold normalizeLen at h
  split_ifs at h with hlt
  have hnn : 0 ≤ v.1 * v.1 + v.2 * v.2 :=
    add_nonneg (mul_self_nonneg _) (mul_self_nonneg _)
  have hge : 1 ≤ Real.sqrt (v.1 * v.1 + v.2 * v.2) := not_lt.mp hlt
  have hpos : 0 < Real.sqrt (v.1 * v.1 + v.2 * v.2) := lt_of_lt_of_le one_pos hge
  have hd := Option.some.inj h
  rw [← hd]
  dsimp only
  have hsq : Real.sqrt (v.1 * v.1 + v.2 * v.2) ^ 2 = v.1 * v.1 + v.2 * v.2 :=
    Real.sq_sqrt hnn
  have hnum : v.1 ^ 2 + v.2 ^ 2 = Real.sqrt (v.1 * v.1 + v.2 * v.2) ^ 2 := by
    rw [hsq]
    ring
  rw [div_pow, div_pow, div_add_div_same, hnum,
    div_self (pow_ne_zero 2 (ne_of_gt hpos))]

theorem foldr_max_mem (l : List ℝ) (h : 0 < l.foldr max 0) : l.foldr max 0 ∈ l := by
  induction l with
  | nil => exact absurd h (by simp)
  | cons a t ih =>
      rw [List.foldr_cons]
      rcases le_total (t.foldr max 0) a with hle | hle
      · rw [max_eq_left hle]
        exact List.mem_cons_self _ _
      · rw [max_eq_right hle]
        rw [List.foldr_cons, max_eq_right hle] at h
        exact List.mem_cons_of_mem _ (ih h)

theorem cornerPts_ne_nil (harris : ℤ → ℤ → ℝ) (w h : ℤ)
    (hpos : 0 < harrisMax harris w h) : cornerPts harris w h ≠ [] := by
  have hmem : harrisMax harris w h ∈ (gridPts w h).map (fun p => harris p.1 p.2) :=
    foldr_max_mem _ hpos
  obtain ⟨p, hp, hval⟩ := List.mem_map.mp hmem
  have hlt : 0.01 * harrisMax harris w h < harris p.1 p.2 := by
    rw [hval]
    nlinarith
  have : p ∈ cornerPts harris w h :=
    List.mem_filter.mpr ⟨hp, decide_eq_true hlt⟩
  exact List.ne_nil_of_mem this

theorem find_none_of_deg (blueMask component : ℤ → ℤ → Bool) (harris : ℤ → ℤ → ℝ)
    (bcx bcy bRadius : ℤ) (allBubbles : List (ℤ × ℤ × ℤ)) (selfIdx : ℕ) (imgW imgH : ℤ)
    (hdeg : roiDegenerate (roiOf bcx bcy bRadius imgW imgH)) :
    findTriangleDirection blueMask component harris bcx bcy bRadius allBubbles selfIdx
      imgW imgH = none := by
  simp only [findTriangleDirection]
  rw [if_pos hdeg]

theorem find_none_of_seed (blueMask component : ℤ → ℤ → Bool) (harris : ℤ → ℤ → ℝ)
    (bcx bcy bRadius : ℤ) (allBubbles : List (ℤ × ℤ × ℤ)) (selfIdx : ℕ) (imgW imgH : ℤ)
    (hs : tracerSeed blueMask bcx bcy bRadius allBubbles selfIdx imgW imgH = none) :
    findTriangleDirection blueMask component harris bcx bcy bRadius allBubbles selfIdx
      imgW imgH = none := by
  unfold tracerSeed at hs
  simp only [findTriangleDirection]
  by_cases hdeg : roiDegenerate (roiOf bcx bcy bRadius imgW imgH)
  · rw [if_pos hdeg]
  · rw [if_neg hdeg, hs]

theorem find_none_of_remaining (blueMask component : ℤ → ℤ → Bool) (harris : ℤ → ℤ → ℝ)
    (bcx bcy bRadius : ℤ) (allBubbles : List (ℤ × ℤ × ℤ)) (selfIdx : ℕ) (imgW imgH : ℤ)
    (h3 : tracerRemaining component bcx bcy bRadius imgW imgH < 3) :
    findTriangleDirection blueMask component harris bcx bcy bRadius allBubbles selfIdx
      imgW imgH = none := by
  unfold tracerRemaining at h3
  simp only [findTriangleDirection]
  by_cases hdeg : roiDegenerate (roiOf bcx bcy bRadius imgW imgH)
  · rw [if_pos hdeg]
  · rw [if_neg hdeg]
    cases hs : findSeed
        (erasedOthersMask blueMask allBubbles selfIdx (roiOf bcx bcy bRadius imgW imgH))
        (roiOf bcx bcy bRadius imgW imgH).wd (roiOf bcx bcy bRadius imgW imgH).ht
        (bcx - (roiOf bcx bcy bRadius imgW imgH).x1)
        (bcy - (roiOf bcx bcy bRadius imgW imgH).y1) bRadius with
    | none => rfl
    | some s =>
        dsimp only
        rw [if_pos h3]

theorem find_eq_normalize (blueMask component : ℤ → ℤ → Bool) (harris : ℤ → ℤ → ℝ)
    (bcx bcy bRadius : ℤ) (allBubbles : List (ℤ × ℤ × ℤ)) (selfIdx : ℕ) (imgW imgH : ℤ)
    (hdeg : ¬ roiDegenerate (roiOf bcx bcy bRadius imgW imgH))
    (hs : ¬ tracerSeed blueMask bcx bcy bRadius allBubbles selfIdx imgW imgH = none)
    (h3 : ¬ tracerRemaining component bcx bcy bRadius imgW imgH < 3) :
    findTriangleDirection blueMask component harris bcx bcy bRadius allBubbles selfIdx
        imgW imgH =
      normalizeLen (tracerFinalVec component harris bcx bcy bRadius imgW imgH) := by
  unfold tracerSeed at hs
  unfold tracerRemaining at h3
  simp only [findTriangleDirection]
  rw [if_neg hdeg]
  cases hseed : findSeed
      (erasedOthersMask blueMask allBubbles selfIdx (roiOf bcx bcy bRadius imgW imgH))
      (roiOf bcx bcy bRadius imgW imgH).wd (roiOf bcx bcy bRadius imgW imgH).ht
      (bcx - (roiOf bcx bcy bRadius imgW imgH).x1)
      (bcy - (roiOf bcx bcy bRadius imgW imgH).y1) bRadius with
  | none => exact absurd hseed hs
  | some s =>
      dsimp only
      rw [if_neg h3]
      have hne : ¬ (erasedPts component (roiOf bcx bcy bRadius imgW imgH).wd
          (roiOf bcx bcy bRadius imgW imgH).ht (bcx - (roiOf bcx bcy bRadius imgW imgH).x1)
          (bcy - (roiOf bcx bcy bRadius imgW imgH).y1) bRadius).length = 0 := by
        omega
      by_cases hH : harrisMax harris (roiOf bcx bcy bRadius imgW imgH).wd
          (roiOf bcx bcy bRadius imgW imgH).ht ≤ 0
      · rw [if_pos hH]
        have hfv : tracerFinalVec component harris bcx bcy bRadius imgW imgH =
            centroidVec (erasedPts component (roiOf bcx bcy bRadius imgW imgH).wd
              (roiOf bcx bcy bRadius imgW imgH).ht
              (bcx - (roiOf bcx bcy bRadius imgW imgH).x1)
              (bcy - (roiOf bcx bcy bRadius imgW imgH).y1) bRadius)
              (bcx - (roiOf bcx bcy bRadius imgW imgH).x1)
              (bcy - (roiOf bcx bcy bRadius imgW imgH).y1) := by
          simp only [tracerFinalVec]
          rw [if_pos hH]
        rw [hfv, centroidDir, if_neg hne]
      · rw [if_neg hH,
          if_neg (cornerPts_ne_nil harris (roiOf bcx bcy bRadius imgW imgH).wd
            (roiOf bcx bcy bRadius imgW imgH).ht (not_le.mp hH))]
        by_cases hw : (cornerSums harris (roiOf bcx bcy bRadius imgW imgH).wd
            (roiOf bcx bcy bRadius imgW imgH).ht (bcx - (roiOf bcx bcy bRadius imgW imgH).x1)
            (bcy - (roiOf bcx bcy bRadius imgW imgH).y1) bRadius).2.2 < 1e-6
        · rw [if_pos hw]
          have hfv : tracerFinalVec component harris bcx bcy bRadius imgW imgH =
              centroidVec (erasedPts component (roiOf bcx bcy bRadius imgW imgH).wd
                (roiOf bcx bcy bRadius imgW imgH).ht
                (bcx - (roiOf bcx bcy bRadius imgW imgH).x1)
                (bcy - (roiOf bcx bcy bRadius imgW imgH).y1) bRadius)
                (bcx - (roiOf bcx bcy bRadius imgW imgH).x1)
                (bcy - (roiOf bcx bcy bRadius imgW imgH).y1) := by
            simp only [tracerFinalVec]
            rw [if_neg hH, if_pos hw]
          rw [hfv, centroidDir, if_neg hne]
        · rw [if_neg hw]
          have hfv : tracerFinalVec component harris bcx bcy bRadius imgW imgH =
              ((cornerSums harris (roiOf bcx bcy bRadius imgW imgH).wd
                  (roiOf bcx bcy bRadius imgW imgH).ht
                  (bcx - (roiOf bcx bcy bRadius imgW imgH).x1)
                  (bcy - (roiOf bcx bcy bRadius imgW imgH).y1) bRadius).1,
                (cornerSums harris (roiOf bcx bcy bRadius imgW imgH).wd
                  (roiOf bcx bcy bRadius imgW imgH).ht
                  (bcx - (roiOf bcx bcy bRadius imgW imgH).x1)
                  (bcy - (roiOf bcx bcy bRadius imgW imgH).y1) bRadius).2.1) := by
            simp only [tracerFinalVec]
            rw [if_neg hH, if_neg hw]
          rw [hfv]

/-- C8: `_find_triangle_direction` never raises — it is a total function into
an optional direction — and returns `none` exactly in the claimed failure
cases: the 3-radius ROI is degenerate (below 10 px in a dimension), no
mask-positive seed pixel exists at the nominal radius or offsets ±1/±2,
fewer than 3 pixels remain after erasing the `b_radius + 2` disk from the
flood-filled component, or the final accumulated/fallback vector has length
below 1. -/
theorem tracer_none_iff (blueMask component : ℤ → ℤ → Bool) (harris : ℤ → ℤ → ℝ)
    (bcx bcy bRadius : ℤ) (allBubbles : List (ℤ × ℤ × ℤ)) (selfIdx : ℕ) (imgW imgH : ℤ) :
    findTriangleDirection blueMask component harris bcx bcy bRadius allBubbles selfIdx
        imgW imgH = none ↔
      (roiDegenerate (roiOf bcx bcy bRadius imgW imgH) ∨
        tracerSeed blueMask bcx bcy bRadius allBubbles selfIdx imgW imgH = none ∨
        tracerRemaining component bcx bcy bRadius imgW imgH < 3 ∨
        Real.sqrt ((tracerFinalVec component harris bcx bcy bRadius imgW imgH).1 ^ 2 +
          (tracerFinalVec component harris bcx bcy bRadius imgW imgH).2 ^ 2) < 1) := by
  constructor
  · intro h
    by_cases hdeg : roiDegenerate (roiOf bcx bcy bRadius imgW imgH)
    · exact Or.inl hdeg
    by_cases hs : tracerSeed blueMask bcx bcy bRadius allBubbles selfIdx imgW imgH = none
    · exact Or.inr (Or.inl hs)
    by_cases h3 : tracerRemaining component bcx bcy bRadius imgW imgH < 3
    · exact Or.inr (Or.inr (Or.inl h3))
    rw [find_eq_normalize blueMask component harris bcx bcy bRadius allBubbles selfIdx
      imgW imgH hdeg hs h3] at h
    exact Or.inr (Or.inr (Or.inr ((normalizeLen_none_iff _).mp h)))
  · intro h
    rcases h with h | h | h | h
    · exact find_none_of_deg blueMask component harris bcx bcy bRadius allBubbles selfIdx
        imgW imgH h
    · exact find_none_of_seed blueMask component harris bcx bcy bRadius allBubbles selfIdx
        imgW imgH h
    · exact find_none_of_remaining blueMask component harris bcx bcy bRadius allBubbles
        selfIdx imgW imgH h
    · by_cases hdeg : roiDegenerate (roiOf bcx bcy bRadius imgW imgH)
      · exact find_none_of_deg blueMask component harris bcx bcy bRadius allBubbles selfIdx
          imgW imgH hdeg
      by_cases hs : tracerSeed blueMask bcx bcy bRadius allBubbles selfIdx imgW imgH = none
      · exact find_none_of_seed blueMask component harris bcx bcy bRadius allBubbles selfIdx
          imgW imgH hs
      by_cases h3 : tracerRemaining component bcx bcy bRadius imgW imgH < 3
      · exact find_none_of_remaining blueMask component harris bcx bcy bRadius allBubbles
          selfIdx imgW imgH h3
      rw [find_eq_normalize blueMask component harris bcx bcy bRadius allBubbles selfIdx
        imgW imgH hdeg hs h3]
      exact (normalizeLen_none_iff _).mpr h

/-- C3: whenever the tracer returns a direction `(dx, dy)` it satisfies
`dx² + dy² = 1` exactly — so in particular within ±1e-3 — and whenever the
accumulated or fallback-centroid vector has length below 1 before
normalisation, the tracer reports no direction instead. -/
theorem tracer_direction_unit (blueMask component : ℤ → ℤ → Bool) (harris : ℤ → ℤ → ℝ)
    (bcx bcy bRadius : ℤ) (allBubbles : List (ℤ × ℤ × ℤ)) (selfIdx : ℕ) (imgW imgH : ℤ) :
    (∀ d : ℝ × ℝ, findTriangleDirection blueMask component harris bcx bcy bRadius
        allBubbles selfIdx imgW imgH = some d → |d.1 ^ 2 + d.2 ^ 2 - 1| ≤ 1 / 1000) ∧
    (Real.sqrt ((tracerFinalVec component harris bcx bcy bRadius imgW imgH).1 ^ 2 +
        (tracerFinalVec component harris bcx bcy bRadius imgW imgH).2 ^ 2) < 1 →
      findTriangleDirection blueMask component harris bcx bcy bRadius allBubbles selfIdx
        imgW imgH = none) := by
  constructor
  · intro d h
    have hv : ∃ v : ℝ × ℝ, normalizeLen v = some d := by
      by_cases hdeg : roiDegenerate (roiOf bcx bcy bRadius imgW imgH)
      · rw [find_none_of_deg blueMask component harris bcx bcy bRadius allBubbles selfIdx
          imgW imgH hdeg] at h
        exact absurd h (by simp)
      by_cases hs : tracerSeed blueMask bcx bcy bRadius allBubbles selfIdx imgW imgH = none
      · rw [find_none_of_seed blueMask component harris bcx bcy bRadius allBubbles selfIdx
          imgW imgH hs] at h
        exact absurd h (by simp)
      by_cases h3 : tracerRemaining component bcx bcy bRadius imgW imgH < 3
      · rw [find_none_of_remaining blueMask component harris bcx bcy bRadius allBubbles
          selfIdx imgW imgH h3] at h
        exact absurd h (by simp)
      rw [find_eq_normalize blueMask component harris bcx bcy bRadius allBubbles selfIdx
        imgW imgH hdeg hs h3] at h
      exact ⟨_, h⟩
    obtain ⟨v, hnl⟩ := hv
    rw [normalizeLen_unit v d hnl]
    norm_num
  · intro h
    by_cases hdeg : roiDegenerate (roiOf bcx bcy bRadius imgW imgH)
    · exact find_none_of_deg blueMask component harris bcx bcy bRadius allBubbles selfIdx
        imgW imgH hdeg
    by_cases hs : tracerSeed blueMask bcx bcy bRadius allBubbles selfIdx imgW imgH = none
    · exact find_none_of_seed blueMask component harris bcx bcy bRadius allBubbles selfIdx
        imgW imgH hs
    by_cases h3 : tracerRemaining component bcx bcy bRadius imgW imgH < 3
    · exact find_none_of_remaining blueMask component harris bcx bcy bRadius allBubbles
        selfIdx imgW imgH h3
    rw [find_eq_normalize blueMask component harris bcx bcy bRadius allBubbles selfIdx
      imgW imgH hdeg hs h3]
    exact (normalizeLen_none_iff _).mpr h

/-- C9: `trace_and_expand` returns exactly one output record per input bubble
in the same order, preserving `id`, `pageNumber`, `bubbleNumber`, `label` and
`croppedImagePath`; whenever no direction is found, the output keeps the
input's bounding box unchanged. -/
theorem trace_and_expand_frame (blueMask : ℤ → ℤ → Bool)
    (componentOf : ℕ → ℤ → ℤ → Bool) (harrisOf : ℕ → ℤ → ℤ → ℝ)
    (bubbles : List Region) (imgW imgH : ℤ) :
    List.Forall₂ (fun bin bout =>
        bout.id = bin.id ∧ bout.pageNumber = bin.pageNumber ∧
        bout.bubbleNumber = bin.bubbleNumber ∧ bout.label = bin.label ∧
        bout.croppedImagePath = bin.croppedImagePath ∧
        (bout.leaderDirection = none → bout.boundingBox = bin.boundingBox))
      bubbles (traceAndExpand blueMask componentOf harrisOf bubbles imgW imgH) := by
  refine forall₂_enumFrom_map _ _ ?_ bubbles 0
  intro n b
  dsimp only
  split
  · exact ⟨rfl, rfl, rfl, rfl, rfl, fun _ => rfl⟩
  · refine ⟨rfl, rfl, rfl, rfl, rfl, fun hld => ?_⟩
    exact absurd hld (by simp)

theorem roiW_eval : roiOf 10 10 2 20 20 = ⟨4, 4, 16, 16⟩ := by decide

theorem harrisW_max (w h : ℤ) : harrisMax harrisW w h = 0 := by
  unfold harrisMax
  induction gridPts w h with
  | nil => rfl
  | cons p t ih =>
      rw [List.map_cons, List.foldr_cons, ih]
      simp [harrisW]

theorem erasedPtsW1_eval :
    erasedPts componentW1 12 12 6 6 2 = [(11, 5), (11, 6), (11, 7)] := by decide

theorem erasedPtsW2_eval :
    erasedPts componentW2 12 12 6 6 2 = [(6, 1), (1, 6), (11, 6), (6, 11)] := by decide

theorem seedProbeW_eval :
    seedProbe (erasedOthersMask maskW [(10, 10, 2)] 0 ⟨4, 4, 16, 16⟩) 12 12 6 6 2 0 =
      some (8, 6) := by
  simp only [seedProbe]
  have hcos : ((0 : ℕ) : ℝ) * 5 * Real.pi / 180 = 0 := by norm_num
  rw [hcos, Real.cos_zero, Real.sin_zero]
  have hpx : ((6 : ℤ) : ℝ) + ((2 : ℤ) : ℝ) * 1 = ((8 : ℤ) : ℝ) := by
    push_cast
    norm_num
  have hpy : ((6 : ℤ) : ℝ) + ((2 : ℤ) : ℝ) * 0 = ((6 : ℤ) : ℝ) := by
    push_cast
    norm_num
  rw [hpx, hpy, pyTrunc_intCast, pyTrunc_intCast, if_pos (by decide)]

theorem findSeedAtW_eval :
    findSeedAt (erasedOthersMask maskW [(10, 10, 2)] 0 ⟨4, 4, 16, 16⟩) 12 12 6 6 2 =
      some (8, 6) := by
  unfold findSeedAt
  have hr : List.range 72 = 0 :: (List.range 71).map Nat.succ := by
    have h := List.range_succ_eq_map 71
    norm_num at h
    exact h
  rw [hr, List.findSome?_cons, seedProbeW_eval]

theorem tracerSeedW_eval :
    tracerSeed maskW 10 10 2 [(10, 10, 2)] 0 20 20 = some (8, 6) := by
  unfold tracerSeed
  rw [roiW_eval]
  norm_num [Roi.wd, Roi.ht]
  unfold findSeed
  rw [findSeedAtW_eval]

theorem centroidVecW1_eval :
    centroidVec [(11, 5), (11, 6), (11, 7)] 6 6 = ((5 : ℝ), (0 : ℝ)) := by
  unfold centroidVec
  norm_num [Prod.ext_iff]

theorem centroidVecW2_eval :
    centroidVec [(6, 1), (1, 6), (11, 6), (6, 11)] 6 6 = ((0 : ℝ), (0 : ℝ)) := by
  unfold centroidVec
  refine Prod.ext ?_ ?_ <;> norm_num

theorem tracerFinalVecW1_eval :
    tracerFinalVec componentW1 harrisW 10 10 2 20 20 = ((5 : ℝ), (0 : ℝ)) := by
  simp only [tracerFinalVec]
  rw [roiW_eval]
  norm_num [Roi.wd, Roi.ht]
  rw [harrisW_max, if_pos (le_refl (0 : ℝ)), erasedPtsW1_eval, centroidVecW1_eval]

theorem tracerFinalVecW2_eval :
    tracerFinalVec componentW2 harrisW 10 10 2 20 20 = ((0 : ℝ), (0 : ℝ)) := by
  simp only [tracerFinalVec]
  rw [roiW_eval]
  norm_num [Roi.wd, Roi.ht]
  rw [harrisW_max, if_pos (le_refl (0 : ℝ)), erasedPtsW2_eval, centroidVecW2_eval]
  simp

theorem normalizeLenW1_eval : normalizeLen ((5 : ℝ), (0 : ℝ)) = some (1, 0) := by
  unfold normalizeLen
  dsimp only
  have h25 : (5 : ℝ) * 5 + 0 * 0 = 5 ^ 2 := by norm_num
  rw [h25, Real.sqrt_sq (by norm_num : (0 : ℝ) ≤ 5),
    if_neg (by norm_num : ¬ ((5 : ℝ) < 1))]
  norm_num [Prod.ext_iff]

/-- Concrete instantiation of the unit-direction theorem: with an all-blue
mask, a 3-pixel component to the right of a radius-2 bubble at (10, 10) on a
20×20 page and an identically-zero Harris response, the tracer returns the
unit direction (1, 0); with the symmetric 4-pixel component, the centroid
vector is degenerate and the tracer reports no direction. -/
theorem tracer_direction_unit_witness :
    (findTriangleDirection maskW componentW1 harrisW 10 10 2 [(10, 10, 2)] 0 20 20 =
        some (1, 0) ∧ |(1 : ℝ) ^ 2 + (0 : ℝ) ^ 2 - 1| ≤ 1 / 1000) ∧
    findTriangleDirection maskW componentW2 harrisW 10 10 2 [(10, 10, 2)] 0 20 20 =
      none := by
  have hdeg : ¬ roiDegenerate (roiOf 10 10 2 20 20) := by decide
  have hs1 : ¬ tracerSeed maskW 10 10 2 [(10, 10, 2)] 0 20 20 = none := by
    rw [tracerSeedW_eval]
    simp
  have h31 : ¬ tracerRemaining componentW1 10 10 2 20 20 < 3 := by decide
  have hfind1 : findTriangleDirection maskW componentW1 harrisW 10 10 2 [(10, 10, 2)] 0
      20 20 = some (1, 0) := by
    rw [find_eq_normalize maskW componentW1 harrisW 10 10 2 [(10, 10, 2)] 0 20 20 hdeg
      hs1 h31, tracerFinalVecW1_eval, normalizeLenW1_eval]
  have h2 : findTriangleDirection maskW componentW2 harrisW 10 10 2 [(10, 10, 2)] 0
      20 20 = none := by
    apply (tracer_direction_unit maskW componentW2 harrisW 10 10 2 [(10, 10, 2)] 0 20 20).2
    rw [tracerFinalVecW2_eval]
    have h0 : ((0 : ℝ), (0 : ℝ)).1 ^ 2 + ((0 : ℝ), (0 : ℝ)).2 ^ 2 = 0 := by norm_num
    rw [h0, Real.sqrt_zero]
    norm_num
  exact ⟨⟨hfind1,
    (tracer_direction_unit maskW componentW1 harrisW 10 10 2 [(10, 10, 2)] 0 20 20).1
      (1, 0) hfind1⟩, h2⟩

end EngVision
